import Mathlib

/-!
Formal model of the data-profiling and filtering core of the
Data-Analysis-Tool application (src/app.py): cleaning
(`drop_duplicates` followed by per-column median imputation of numeric
columns), null-percentage analysis (global and grouped), per-column
value counts, the correlation step of exploratory analysis, and
value-based row filtering.  The pandas operations the source calls are
embedded with their library semantics made explicit (NaN-equality in
duplicate detection, NaN matching in `isin`, `dropna=True` in
`groupby`, median of an even-length sample as the mean of the two
middle elements, and so on); each definition's doc comment records the
source line it embeds.
-/

/-- Scalar cell value of a loaded table: a missing value (pandas NaN),
a numeric value (modelled exactly as a rational, standing for the float
the code manipulates), or a textual value. -/
inductive Value
  | na
  | num (q : ℚ)
  | str (s : String)
deriving DecidableEq

/-- Test for a missing cell (pandas `isnull`). -/
def isNA : Value → Bool
  | Value.na => true
  | _ => false

/-- Test for a textual cell. -/
def isStr : Value → Bool
  | Value.str _ => true
  | _ => false

/-- In-memory table (pandas DataFrame): named columns and positionally
aligned rows.  A cell is read with `List.getD`, so a missing position
reads as `Value.na`. -/
structure Table where
  cols : List String
  rows : List (List Value)
deriving DecidableEq

/-- Well-formed table: every row has exactly one cell per column. -/
def Table.WF (df : Table) : Prop :=
  ∀ r ∈ df.rows, r.length = df.cols.length

instance (df : Table) : Decidable df.WF :=
  decidable_of_iff (∀ r ∈ df.rows, r.length = df.cols.length) Iff.rfl

/-- Position of a named column. -/
def colIdx (df : Table) (c : String) : Nat :=
  df.cols.indexOf c

/-- Values of the column at position `i`, one per row (`df.iloc[:, i]`). -/
def valuesAtIdx (df : Table) (i : Nat) : List Value :=
  df.rows.map (fun r => r.getD i Value.na)

/-- Values of the named column `c` (`df[c]`). -/
def colValues (df : Table) (c : String) : List Value :=
  valuesAtIdx df (colIdx df c)

/-- Distinct elements of a list in order of first appearance, given an
accumulator of elements already seen.  Structural recursion so that
concrete instances evaluate by `rfl` and `decide`. -/
def distinctAux {α : Type} [DecidableEq α] (seen : List α) : List α → List α
  | [] => []
  | a :: t => if a ∈ seen then distinctAux seen t else a :: distinctAux (a :: seen) t

/-- Distinct elements of a list in order of first appearance. -/
def distinctFirstSeen {α : Type} [DecidableEq α] (l : List α) : List α :=
  distinctAux [] l

/-- Row deduplication keeping the first occurrence of each row, as
`df.drop_duplicates()` does (src/app.py line 53).  pandas treats NaN
cells as equal to each other when comparing rows, which structural
equality on `Value` reproduces. -/
def dedupRows (rows : List (List Value)) : List (List Value) :=
  distinctFirstSeen rows

/-- Column classification used by `select_dtypes(include='number')`
(src/app.py line 54): after `read_csv` type inference, a column has a
numeric dtype exactly when none of its cells is textual (an all-NaN
column is float64, hence numeric). -/
def numericVals (vs : List Value) : Bool :=
  vs.all (fun v => !isStr v)

/-- Numeric cell payloads of a column, missing values skipped. -/
def numsOf (vs : List Value) : List ℚ :=
  vs.filterMap (fun v => match v with
    | Value.num q => some q
    | _ => none)

/-- Median of a rational sample as pandas computes it (`skipna` sample
already extracted by `numsOf`): sort, take the middle element of an
odd-length sample, the mean of the two middle elements of an
even-length one, and NaN (here `none`) for an empty sample. -/
def medianQ (l : List ℚ) : Option ℚ :=
  let s := List.insertionSort (fun a b => a ≤ b) l
  if s.length = 0 then none
  else if s.length % 2 = 1 then some (s.getD (s.length / 2) 0)
  else some ((s.getD (s.length / 2 - 1) 0 + s.getD (s.length / 2) 0) / 2)

/-- Fill value for the column at position `i` of `df`, embedding
`df[numeric_cols].median()` restricted to the columns selected by
`select_dtypes` (src/app.py line 55): `none` for a non-numeric column
and for a numeric column with no observed values (whose NaN median
makes `fillna` a no-op). -/
def fillAt (df : Table) (i : Nat) : Option ℚ :=
  let vs := valuesAtIdx df i
  if numericVals vs then medianQ (numsOf vs) else none

/-- Replacement of one cell by `fillna`: a missing cell becomes the
fill value when there is one; any other cell is untouched. -/
def fillCell (f : Nat → Option ℚ) (i : Nat) (v : Value) : Value :=
  if isNA v then
    match f i with
    | some m => Value.num m
    | none => Value.na
  else v

/-- Apply `fillCell` positionally along a row starting at column
position `i`. -/
def fillRowAux (f : Nat → Option ℚ) : Nat → List Value → List Value
  | _, [] => []
  | i, v :: vs => fillCell f i v :: fillRowAux f (i + 1) vs

/-- Embedding of `df[numeric_cols] = df[numeric_cols].fillna(df[numeric_cols].median())`
(src/app.py line 55) applied to a table. -/
def fillTable (df : Table) : Table :=
  ⟨df.cols, df.rows.map (fun r => fillRowAux (fillAt df) 0 r)⟩

/-- First step of `clean_data`: `df.drop_duplicates()` as a table. -/
def dedupTable (df : Table) : Table :=
  ⟨df.cols, dedupRows df.rows⟩

/-- Embedding of `clean_data` (src/app.py lines 52-56): drop duplicate
rows, then impute missing values of numeric columns with the column
median computed on the deduplicated table. -/
def clean_data (df : Table) : Table :=
  fillTable (dedupTable df)

/-- Distinct non-missing values of a column in first-appearance order:
`df[filter_column].dropna().unique().tolist()` (src/app.py line 147). -/
def uniqueValues (df : Table) (c : String) : List Value :=
  distinctFirstSeen ((colValues df c).filter (fun v => !isNA v))

/-- Embedding of `filter_by_view_indicator` (src/app.py lines 144-159)
with the interactive multiselect replaced by the `selected` parameter
(the UI draws it from `uniqueValues`, default all of them): when the
column has no non-missing value, or when nothing is selected, the full
table is returned; otherwise rows whose value in the filter column is
a member of `selected` are kept (`df[df[filter_column].isin(selected_values)]`;
pandas `isin` matches a NaN cell exactly when NaN is itself among the
searched values, which membership of `Value.na` reproduces). -/
def filter_by_view_indicator (df : Table) (c : String) (selected : List Value) : Table :=
  if uniqueValues df c = [] then df
  else if selected = [] then df
  else ⟨df.cols, df.rows.filter (fun r => decide (r.getD (colIdx df c) Value.na ∈ selected))⟩

/-- Descending-count order on value/count pairs used by `value_counts`. -/
def byCountDesc (p q : Value × Nat) : Prop :=
  q.2 ≤ p.2

instance : DecidableRel byCountDesc := fun p q => Nat.decLe q.2 p.2

instance : IsTotal (Value × Nat) byCountDesc :=
  ⟨fun p q => (Nat.le_total q.2 p.2).imp id id⟩

instance : IsTrans (Value × Nat) byCountDesc :=
  ⟨fun _ _ _ h h2 => le_trans h2 h⟩

/-- Embedding of `df[column].value_counts()` (src/app.py line 142):
missing values dropped, each distinct observed value paired with its
occurrence count, ordered by descending count; the sort is stable over
the first-appearance enumeration of distinct values, so ties keep
first-seen order. -/
def value_counts (vs : List Value) : List (Value × Nat) :=
  let present := vs.filter (fun v => !isNA v)
  List.insertionSort byCountDesc
    ((distinctFirstSeen present).map (fun v => (v, present.count v)))

/-- Group key of a row for a list of grouping columns. -/
def keyOf (df : Table) (gcols : List String) (r : List Value) : List Value :=
  gcols.map (fun c => r.getD (colIdx df c) Value.na)

/-- Rows that participate in `df.groupby(grouping_options)`: pandas
groups with `dropna=True`, so a row with a missing value in any
grouping column is excluded from every group. -/
def keptRows (df : Table) (gcols : List String) : List (List Value) :=
  df.rows.filter (fun r => (keyOf df gcols r).all (fun v => !isNA v))

/-- Group keys produced by `df.groupby(grouping_options)` (src/app.py
line 108): the distinct fully-present key combinations.  pandas
enumerates groups in sorted key order; they are modelled here in
first-appearance order, on which no stated property depends. -/
def groupKeys (df : Table) (gcols : List String) : List (List Value) :=
  distinctFirstSeen ((keptRows df gcols).map (keyOf df gcols))

/-- Rows of the group with key `k`. -/
def groupRows (df : Table) (gcols : List String) (k : List Value) : List (List Value) :=
  (keptRows df gcols).filter (fun r => decide (keyOf df gcols r = k))

/-- Null percentage of the column at position `i` over a list of rows:
`x.isnull().mean() * 100` (src/app.py line 108). -/
def groupNullPct (rows : List (List Value)) (i : Nat) : ℚ :=
  100 * ((rows.map (fun r => r.getD i Value.na)).count Value.na : ℚ) / (rows.length : ℚ)

/-- Embedding of the grouped branch of `null_percentage_analysis`
(src/app.py lines 106-109): one entry per group key, carrying the null
percentage of every selected feature inside that group. -/
def nullPctGrouped (df : Table) (gcols fcols : List String) : List (List Value × List ℚ) :=
  (groupKeys df gcols).map (fun k =>
    (k, fcols.map (fun f => groupNullPct (groupRows df gcols k) (colIdx df f))))

/-- Embedding of the ungrouped branch `df[features].isnull().mean() * 100`
(src/app.py line 113) for one feature column; pandas yields NaN on an
empty table (mean of an empty column), modelled as `none`. -/
def nullPct (df : Table) (c : String) : Option ℚ :=
  if df.rows.length = 0 then none
  else some (100 * (((colValues df c).count Value.na : ℚ)) / (df.rows.length : ℚ))

/-- Weighted sum of per-group null percentages of column `c`, each
group weighted by its row count (the quantity the specification
compares with the ungrouped percentage). -/
def weightedGroupSum (df : Table) (gcols : List String) (c : String) : ℚ :=
  ((groupKeys df gcols).map (fun k =>
    ((groupRows df gcols k).length : ℚ) * groupNullPct (groupRows df gcols k) (colIdx df c))).sum

/-- Rows where the columns at positions `i` and `j` are both observed,
as numeric pairs: the pairwise-complete sample pandas correlates. -/
def pairComplete (df : Table) (i j : Nat) : List (ℚ × ℚ) :=
  df.rows.filterMap (fun r =>
    match r.getD i Value.na, r.getD j Value.na with
    | Value.num a, Value.num b => some (a, b)
    | _, _ => none)

/-- Pearson data of a paired sample, represented exactly: the centered
cross sum and the two centered square sums `(cov, vx, vy)`, from which
the correlation is `cov / sqrt (vx * vy)` (irrational in general, and
NaN when the denominator vanishes, so the triple is kept unreduced). -/
def pearsonTriple (ps : List (ℚ × ℚ)) : ℚ × ℚ × ℚ :=
  let n : ℚ := (ps.length : ℚ)
  let xbar := (ps.map Prod.fst).sum / n
  let ybar := (ps.map Prod.snd).sum / n
  ((ps.map (fun p => (p.1 - xbar) * (p.2 - ybar))).sum,
   (ps.map (fun p => (p.1 - xbar) * (p.1 - xbar))).sum,
   (ps.map (fun p => (p.2 - ybar) * (p.2 - ybar))).sum)

/-- Embedding of the `df.corr()` call of `explore_data` (src/app.py
line 74).  Under the pandas 2.x default `numeric_only=False` the frame
is converted to a float matrix first, so the call raises an uncaught
`ValueError` as soon as any column is non-numeric; otherwise it returns
the pairwise-complete Pearson matrix over all (numeric) columns. -/
def dataframe_corr (df : Table) : Except String (List (List (ℚ × ℚ × ℚ))) :=
  if (List.range df.cols.length).all (fun i => numericVals (valuesAtIdx df i)) then
    Except.ok ((List.range df.cols.length).map (fun i =>
      (List.range df.cols.length).map (fun j => pearsonTriple (pairComplete df i j))))
  else
    Except.error "could not convert string to float"

/-- Scenario table of the specification: columns age (numeric after
csv type inference, float64 because of the NaN) and city (text), rows
(25,A), (NaN,A), (25,B), (25,A); the last row duplicates the first. -/
def scenarioTbl : Table :=
  ⟨["age", "city"],
   [[Value.num 25, Value.str "A"],
    [Value.na, Value.str "A"],
    [Value.num 25, Value.str "B"],
    [Value.num 25, Value.str "A"]]⟩

/-- Table whose two rows are distinct before cleaning but become equal
once the missing age is imputed with the median 25. -/
def tblDupAfterFill : Table :=
  ⟨["age", "city"],
   [[Value.num 25, Value.str "A"],
    [Value.na, Value.str "A"]]⟩

/-- Table with two identical rows and no missing values. -/
def tblTwinRows : Table :=
  ⟨["a"], [[Value.num 1], [Value.num 1]]⟩

/-- Table whose second row has a missing group-key value. -/
def tblMissingKey : Table :=
  ⟨["g", "x"],
   [[Value.str "A", Value.na],
    [Value.na, Value.na]]⟩

/-- One-row table whose only group-key value is missing and whose
feature value is missing. -/
def tblAllKeyNA : Table :=
  ⟨["g", "c"], [[Value.na, Value.na]]⟩

/-- Table with fully observed group keys and some missing feature
values. -/
def tblGrouped : Table :=
  ⟨["g", "c"],
   [[Value.str "A", Value.na],
    [Value.str "A", Value.num 1],
    [Value.str "B", Value.na]]⟩

/-- Table with two observed values and one missing value in its single
column. -/
def tblFilter : Table :=
  ⟨["c"], [[Value.str "A"], [Value.str "B"], [Value.na]]⟩

/-- One-row table whose single column is entirely missing. -/
def tblAllNA : Table :=
  ⟨["c"], [[Value.na]]⟩

/-- Table whose single column holds one observed and one missing
value. -/
def tblMixed : Table :=
  ⟨["c"], [[Value.str "A"], [Value.na]]⟩

/-- Table with one numeric and one textual column, both fully
observed. -/
def tblMixedTypes : Table :=
  ⟨["age", "city"],
   [[Value.num 25, Value.str "A"],
    [Value.num 30, Value.str "B"]]⟩

/-- Table whose first column is numeric (float64 dtype) but entirely
missing, next to an observed numeric column. -/
def tblNumAllNA : Table :=
  ⟨["x", "y"],
   [[Value.na, Value.num 1],
    [Value.na, Value.num 2]]⟩

/-- Specification-side deduplication, read off the spec wording: scan
the rows in order and keep a row exactly when an equal row has not
occurred earlier, so survivors stay in their original relative
order. -/
def specDedup (rows : List (List Value)) : List (List Value) :=
  rows.foldl (fun acc r => if r ∈ acc then acc else acc ++ [r]) []

theorem isNA_iff (v : Value) : isNA v = true ↔ v = Value.na := by
  cases v <;> simp [isNA]

theorem mem_distinctAux {α : Type} [DecidableEq α] (x : α) (l : List α) :
    ∀ seen, x ∈ distinctAux seen l ↔ x ∈ l ∧ x ∉ seen := by
  induction l with
  | nil => intro seen; simp [distinctAux]
  | cons a t ih =>
    intro seen
    by_cases ha : a ∈ seen
    · rw [show distinctAux seen (a :: t) = distinctAux seen t by
        simp only [distinctAux, if_pos ha], ih seen]
      constructor
      · exact fun h => ⟨List.mem_cons_of_mem a h.1, h.2⟩
      · rintro ⟨h1, h2⟩
        rcases List.mem_cons.mp h1 with rfl | h1
        · exact absurd ha h2
        · exact ⟨h1, h2⟩
    · rw [show distinctAux seen (a :: t) = a :: distinctAux (a :: seen) t by
        simp only [distinctAux, if_neg ha]]
      rw [List.mem_cons, ih (a :: seen)]
      constructor
      · rintro (rfl | ⟨h1, h2⟩)
        · exact ⟨List.mem_cons_self _ _, ha⟩
        · exact ⟨List.mem_cons_of_mem a h1,
            fun hx => h2 (List.mem_cons_of_mem a hx)⟩
      · rintro ⟨h1, h2⟩
        by_cases hxa : x = a
        · exact Or.inl hxa
        · rcases List.mem_cons.mp h1 with rfl | h1
          · exact absurd rfl hxa
          · exact Or.inr ⟨h1, fun hx => (List.mem_cons.mp hx).elim hxa h2⟩

theorem mem_distinctFirstSeen {α : Type} [DecidableEq α] (x : α) (l : List α) :
    x ∈ distinctFirstSeen l ↔ x ∈ l := by
  unfold distinctFirstSeen
  rw [mem_distinctAux]
  simp

theorem nodup_distinctAux {α : Type} [DecidableEq α] (l : List α) :
    ∀ seen, (distinctAux seen l).Nodup := by
  induction l with
  | nil => intro; simp [distinctAux]
  | cons a t ih =>
    intro seen
    by_cases ha : a ∈ seen
    · simp only [distinctAux, if_pos ha]; exact ih seen
    · simp only [distinctAux, if_neg ha]
      refine List.nodup_cons.mpr ⟨fun hmem => ?_, ih (a :: seen)⟩
      exact ((mem_distinctAux a t (a :: seen)).mp hmem).2 (List.mem_cons_self a seen)

theorem distinctAux_sublist {α : Type} [DecidableEq α] (l : List α) :
    ∀ seen, (distinctAux seen l).Sublist l := by
  induction l with
  | nil => intro; simp [distinctAux]
  | cons a t ih =>
    intro seen
    by_cases ha : a ∈ seen
    · simp only [distinctAux, if_pos ha]
      exact (ih seen).cons a
    · simp only [distinctAux, if_neg ha]
      exact (ih (a :: seen)).cons₂ a

theorem mem_uniqueValues {df : Table} {c : String} {v : Value} :
    v ∈ uniqueValues df c ↔ v ∈ colValues df c ∧ isNA v = false := by
  unfold uniqueValues distinctFirstSeen
  rw [mem_distinctAux]
  simp [List.mem_filter]

/-- C6: for every Table and column, an empty selection makes
`filter_by_view_indicator` return the full unfiltered table (the empty
selection means no filter selected, not filter everything out). -/
theorem filter_empty_selection_gives_full_table (df : Table) (c : String) :
    filter_by_view_indicator df c [] = df := by
  unfold filter_by_view_indicator
  by_cases h : uniqueValues df c = []
  · rw [if_pos h]
  · rw [if_neg h, if_pos rfl]

/-- C7: for a non-empty selection (drawn, as the UI guarantees, from
the distinct observed values of the filter column), every surviving
row's value in the filter column is a member of the selection, the
surviving rows keep their relative order from the original table, and
the column set is unchanged. -/
theorem filter_keeps_selected_rows_in_order (df : Table) (c : String)
    (selected : List Value) (hne : selected ≠ [])
    (hsub : selected ⊆ uniqueValues df c) :
    (filter_by_view_indicator df c selected).cols = df.cols ∧
    (filter_by_view_indicator df c selected).rows.Sublist df.rows ∧
    ∀ r ∈ (filter_by_view_indicator df c selected).rows,
      r.getD (colIdx df c) Value.na ∈ selected := by
  obtain ⟨v, hv⟩ := List.exists_mem_of_ne_nil selected hne
  have hu : uniqueValues df c ≠ [] := List.ne_nil_of_mem (hsub hv)
  unfold filter_by_view_indicator
  rw [if_neg hu, if_neg hne]
  refine ⟨rfl, List.filter_sublist _, ?_⟩
  intro r hr
  exact of_decide_eq_true (List.mem_filter.mp hr).2

/-- Witness for C7 at a concrete table and selection. -/
theorem filter_keeps_selected_rows_in_order_witness :
    (filter_by_view_indicator tblFilter "c" [Value.str "A"]).cols = tblFilter.cols ∧
    (filter_by_view_indicator tblFilter "c" [Value.str "A"]).rows.Sublist tblFilter.rows ∧
    ∀ r ∈ (filter_by_view_indicator tblFilter "c" [Value.str "A"]).rows,
      r.getD (colIdx tblFilter "c") Value.na ∈ [Value.str "A"] :=
  filter_keeps_selected_rows_in_order tblFilter "c" [Value.str "A"]
    (by decide)
    (by
      intro x hx
      rcases List.mem_singleton.mp hx with rfl
      decide)

/-- C9 (amended): when the filter column has at least one observed
value, filtering with the default selection (all distinct observed
values) keeps exactly the rows whose value in that column is
non-missing; and when the column moreover contains a missing value,
the default filter is not the identity.  (When the column is entirely
missing the code returns the table unchanged instead, which is the
correction to the claim.) -/
theorem default_filter_drops_missing_rows (df : Table) (c : String)
    (h : uniqueValues df c ≠ []) :
    filter_by_view_indicator df c (uniqueValues df c)
      = ⟨df.cols, df.rows.filter (fun r => !isNA (r.getD (colIdx df c) Value.na))⟩ ∧
    (Value.na ∈ colValues df c →
      filter_by_view_indicator df c (uniqueValues df c) ≠ df) := by
  have hmem : ∀ r ∈ df.rows,
      decide (r.getD (colIdx df c) Value.na ∈ uniqueValues df c)
        = !isNA (r.getD (colIdx df c) Value.na) := by
    intro r hr
    have hvmem : r.getD (colIdx df c) Value.na ∈ colValues df c :=
      List.mem_map_of_mem _ hr
    by_cases hna : isNA (r.getD (colIdx df c) Value.na) = true
    · have hnot : r.getD (colIdx df c) Value.na ∉ uniqueValues df c := by
        intro hmemu
        have h2 := (mem_uniqueValues.mp hmemu).2
        rw [hna] at h2
        exact absurd h2 (by decide)
      rw [hna, decide_eq_false hnot]
      rfl
    · have hfalse : isNA (r.getD (colIdx df c) Value.na) = false :=
        Bool.eq_false_iff.mpr hna
      have hin : r.getD (colIdx df c) Value.na ∈ uniqueValues df c :=
        mem_uniqueValues.mpr ⟨hvmem, hfalse⟩
      rw [hfalse, decide_eq_true hin]
      rfl
  have e1 : filter_by_view_indicator df c (uniqueValues df c)
      = ⟨df.cols, df.rows.filter (fun r => !isNA (r.getD (colIdx df c) Value.na))⟩ := by
    unfold filter_by_view_indicator
    rw [if_neg h, if_neg h]
    exact congrArg (Table.mk df.cols) (List.filter_congr hmem)
  refine ⟨e1, fun hna heq => ?_⟩
  have hrows : df.rows.filter (fun r => !isNA (r.getD (colIdx df c) Value.na))
      = df.rows := congrArg Table.rows (e1.symm.trans heq)
  have hna2 : Value.na ∈ df.rows.map (fun r => r.getD (colIdx df c) Value.na) := hna
  obtain ⟨r, hr, hrv⟩ := List.mem_map.mp hna2
  have hkeep := List.filter_eq_self.mp hrows r hr
  rw [hrv] at hkeep
  simp [isNA] at hkeep

/-- Counterexample to C9 as stated: on a table whose filter column is
entirely missing, the default selection is empty and the operation
returns the full table, not the (empty) set of rows with an observed
value; in particular the default filter is the identity here although
the column contains a missing value. -/
theorem default_filter_counterexample :
    filter_by_view_indicator tblAllNA "c" (uniqueValues tblAllNA "c") = tblAllNA ∧
    Value.na ∈ colValues tblAllNA "c" ∧ tblAllNA.rows ≠ [] := by
  decide

/-- Witness for the amended C9 at a concrete table with one observed
and one missing value. -/
theorem default_filter_drops_missing_rows_witness :
    filter_by_view_indicator tblMixed "c" (uniqueValues tblMixed "c")
      = ⟨tblMixed.cols,
         tblMixed.rows.filter (fun r => !isNA (r.getD (colIdx tblMixed "c") Value.na))⟩ ∧
    filter_by_view_indicator tblMixed "c" (uniqueValues tblMixed "c") ≠ tblMixed :=
  ⟨(default_filter_drops_missing_rows tblMixed "c" (by decide)).1,
   (default_filter_drops_missing_rows tblMixed "c" (by decide)).2 (by decide)⟩

theorem table_ext {df e : Table} (hc : df.cols = e.cols) (hr : df.rows = e.rows) :
    df = e := by
  cases df; cases e; cases hc; cases hr; rfl

theorem medianQ_nil : medianQ [] = none := rfl

theorem fillCell_none {f : Nat → Option ℚ} {i : Nat} (h : f i = none) (v : Value) :
    fillCell f i v = v := by
  cases v with
  | na => simp [fillCell, isNA, h]
  | num q => simp [fillCell, isNA]
  | str s => simp [fillCell, isNA]

theorem fillCell_some {f : Nat → Option ℚ} {i : Nat} {m : ℚ} (h : f i = some m) (v : Value) :
    fillCell f i v = if v = Value.na then Value.num m else v := by
  cases v with
  | na => simp [fillCell, isNA, h]
  | num q => simp [fillCell, isNA]
  | str s => simp [fillCell, isNA]

theorem fillCell_idem {f f2 : Nat → Option ℚ} {i : Nat}
    (h : f i = none → f2 i = none) (v : Value) :
    fillCell f2 i (fillCell f i v) = fillCell f i v := by
  cases v with
  | na =>
    cases hfi : f i with
    | some m => simp [fillCell, isNA, hfi]
    | none => simp [fillCell, isNA, hfi, h hfi]
  | num q => simp [fillCell, isNA]
  | str s => simp [fillCell, isNA]

theorem fillRowAux_getD (f : Nat → Option ℚ) (vs : List Value) :
    ∀ (i k : Nat),
      (fillRowAux f i vs).getD k Value.na
        = if k < vs.length then fillCell f (i + k) (vs.getD k Value.na) else Value.na := by
  induction vs with
  | nil =>
    intro i k
    simp [fillRowAux]
  | cons v t ih =>
    intro i k
    cases k with
    | zero => simp [fillRowAux]
    | succ k =>
      simp only [fillRowAux, List.getD_cons_succ]
      rw [ih (i + 1) k]
      by_cases hk : k < t.length
      · rw [if_pos hk, if_pos (by simpa using Nat.succ_lt_succ hk)]
        congr 1
        omega
      · rw [if_neg hk, if_neg (by simp; omega)]

theorem valuesAtIdx_fillTable (df : Table) (i : Nat) (h : fillAt df i = none) :
    valuesAtIdx (fillTable df) i = valuesAtIdx df i := by
  show (df.rows.map (fun r => fillRowAux (fillAt df) 0 r)).map (fun r => r.getD i Value.na)
      = df.rows.map (fun r => r.getD i Value.na)
  rw [List.map_map]
  apply List.map_congr_left
  intro r hr
  show (fillRowAux (fillAt df) 0 r).getD i Value.na = r.getD i Value.na
  rw [fillRowAux_getD]
  by_cases hi : i < r.length
  · rw [if_pos hi, Nat.zero_add, fillCell_none h]
  · rw [if_neg hi, List.getD_eq_default _ _ (by omega)]

theorem fillAt_fillTable_none (df : Table) (i : Nat) (h : fillAt df i = none) :
    fillAt (fillTable df) i = none := by
  have e : valuesAtIdx (fillTable df) i = valuesAtIdx df i :=
    valuesAtIdx_fillTable df i h
  simp only [fillAt] at h ⊢
  rw [e]
  exact h

theorem fillRow_idem {f f2 : Nat → Option ℚ}
    (h : ∀ j, f j = none → f2 j = none) (vs : List Value) :
    ∀ i : Nat, fillRowAux f2 i (fillRowAux f i vs) = fillRowAux f i vs := by
  induction vs with
  | nil => intro i; rfl
  | cons v t ih =>
    intro i
    simp only [fillRowAux]
    rw [ih (i + 1)]
    rw [fillCell_idem (h i) v]

theorem fillTable_idem (df : Table) : fillTable (fillTable df) = fillTable df := by
  apply table_ext
  · rfl
  show (df.rows.map (fun r => fillRowAux (fillAt df) 0 r)).map
        (fun r => fillRowAux (fillAt (fillTable df)) 0 r)
      = df.rows.map (fun r => fillRowAux (fillAt df) 0 r)
  rw [List.map_map]
  apply List.map_congr_left
  intro r hr
  show fillRowAux (fillAt (fillTable df)) 0 (fillRowAux (fillAt df) 0 r)
      = fillRowAux (fillAt df) 0 r
  exact fillRow_idem (fun j => fillAt_fillTable_none df j) r 0

/-- C10: a column that is entirely missing stays entirely missing
after clean (its float64 dtype makes it numeric, but the median of its
empty observed sample is NaN and `fillna` with NaN imputes nothing),
so the zero-missing-after-clean guarantee does not extend to
all-missing numeric columns. -/
theorem clean_keeps_all_missing_column (df : Table) (i : Nat)
    (h : ∀ r ∈ df.rows, r.getD i Value.na = Value.na) :
    ∀ r ∈ (clean_data df).rows, r.getD i Value.na = Value.na := by
  have hded : ∀ r ∈ dedupRows df.rows, r.getD i Value.na = Value.na :=
    fun r hr => h r ((mem_distinctFirstSeen r df.rows).mp hr)
  have hfill : fillAt (dedupTable df) i = none := by
    have hnums : numsOf (valuesAtIdx (dedupTable df) i) = [] := by
      apply List.filterMap_eq_nil_iff.mpr
      intro v hv
      obtain ⟨r, hr, rfl⟩ := List.mem_map.mp hv
      rw [hded r hr]
    simp only [fillAt]
    rw [hnums]
    by_cases hnum : numericVals (valuesAtIdx (dedupTable df) i) = true
    · rw [if_pos hnum, medianQ_nil]
    · rw [if_neg hnum]
  intro r hr
  have hr2 : r ∈ (dedupRows df.rows).map
      (fun r => fillRowAux (fillAt (dedupTable df)) 0 r) := hr
  obtain ⟨r0, hr0, rfl⟩ := List.mem_map.mp hr2
  rw [fillRowAux_getD]
  by_cases hi : i < r0.length
  · rw [if_pos hi, Nat.zero_add, hded r0 hr0, fillCell_none hfill]
  · rw [if_neg hi]

/-- Witness for C10: cleaning a table whose first column is entirely
missing leaves every cell of that column missing. -/
theorem clean_keeps_all_missing_column_witness :
    ((clean_data tblNumAllNA).rows.all (fun r => isNA (r.getD 0 Value.na))) = true := by
  apply List.all_eq_true.mpr
  intro r hr
  rw [isNA_iff]
  exact clean_keeps_all_missing_column tblNumAllNA 0 (by decide) r hr

/-- Counterexample to C1 as stated: the two rows of this table are
distinct, so deduplication keeps both, and imputing the missing age
with the median 25 then makes them identical; the second application
of clean removes the new duplicate, so clean is not idempotent. -/
theorem clean_not_idempotent_counterexample :
    clean_data tblDupAfterFill
      = ⟨["age", "city"],
         [[Value.num 25, Value.str "A"], [Value.num 25, Value.str "A"]]⟩ ∧
    clean_data (clean_data tblDupAfterFill) ≠ clean_data tblDupAfterFill := by
  decide

/-- C1 (amended): clean is idempotent on every table whose cleaned
form has no duplicate rows; median imputation can merge previously
distinct rows, and exactly then a second clean differs by removing
those new duplicates. -/
theorem clean_idempotent_when_no_new_duplicates (df : Table)
    (h : dedupRows (clean_data df).rows = (clean_data df).rows) :
    clean_data (clean_data df) = clean_data df := by
  have e2 : dedupTable (clean_data df) = clean_data df := by
    unfold dedupTable
    rw [h]
  have e1 : clean_data (clean_data df) = fillTable (clean_data df) := by
    show fillTable (dedupTable (clean_data df)) = fillTable (clean_data df)
    rw [e2]
  rw [e1]
  exact fillTable_idem (dedupTable df)

/-- Witness for the amended C1 on a table whose cleaned form is
duplicate-free. -/
theorem clean_idempotent_witness :
    clean_data (clean_data tblTwinRows) = clean_data tblTwinRows :=
  clean_idempotent_when_no_new_duplicates tblTwinRows (by decide)

theorem distinctAux_congr {α : Type} [DecidableEq α] (l : List α) :
    ∀ s₁ s₂, (∀ x, x ∈ s₁ ↔ x ∈ s₂) → distinctAux s₁ l = distinctAux s₂ l := by
  induction l with
  | nil => intros; rfl
  | cons a t ih =>
    intro s₁ s₂ h
    by_cases ha : a ∈ s₁
    · simp only [distinctAux, if_pos ha, if_pos ((h a).mp ha)]
      exact ih s₁ s₂ h
    · have ha2 : a ∉ s₂ := fun hx => ha ((h a).mpr hx)
      simp only [distinctAux, if_neg ha, if_neg ha2]
      rw [ih (a :: s₁) (a :: s₂) (fun x => by
        simp only [List.mem_cons]
        exact or_congr Iff.rfl (h x))]

theorem foldl_keepFirst (l : List (List Value)) :
    ∀ acc, l.foldl (fun acc r => if r ∈ acc then acc else acc ++ [r]) acc
      = acc ++ distinctAux acc l := by
  induction l with
  | nil => intro acc; simp [distinctAux]
  | cons a t ih =>
    intro acc
    rw [List.foldl_cons]
    by_cases ha : a ∈ acc
    · simp only [if_pos ha]
      rw [ih acc]
      simp only [distinctAux, if_pos ha]
    · simp only [if_neg ha]
      rw [ih (acc ++ [a])]
      rw [distinctAux_congr t (acc ++ [a]) (a :: acc) (fun x => by
        simp only [List.mem_append, List.mem_singleton, List.mem_cons,
          List.not_mem_nil, or_false]
        exact or_comm)]
      simp only [distinctAux, if_neg ha]
      rw [List.append_assoc]
      rfl

theorem dedupRows_eq_specDedup (rows : List (List Value)) :
    dedupRows rows = specDedup rows := by
  have h := foldl_keepFirst rows []
  rw [List.nil_append] at h
  exact h.symm

/-- On a well-formed table, a numeric column of the deduplicated table
whose observed sample has a median gets exactly its missing entries
replaced by that median in the cleaned table. -/
theorem clean_fills_numeric_column_with_median (df : Table) (i : Nat)
    (hwf : df.WF) (hi : i < df.cols.length)
    (hnum : numericVals (valuesAtIdx (dedupTable df) i) = true)
    (m : ℚ) (hm : medianQ (numsOf (valuesAtIdx (dedupTable df) i)) = some m) :
    valuesAtIdx (clean_data df) i
      = (valuesAtIdx (dedupTable df) i).map
          (fun v => if v = Value.na then Value.num m else v) := by
  have hf : fillAt (dedupTable df) i = some m := by
    simp only [fillAt]
    rw [if_pos hnum, hm]
  have hrl : ∀ r ∈ dedupRows df.rows, i < r.length := by
    intro r hr
    rw [hwf r ((mem_distinctFirstSeen r df.rows).mp hr)]
    exact hi
  show ((dedupRows df.rows).map (fun r => fillRowAux (fillAt (dedupTable df)) 0 r)).map
        (fun r => r.getD i Value.na)
      = ((dedupRows df.rows).map (fun r => r.getD i Value.na)).map
          (fun v => if v = Value.na then Value.num m else v)
  rw [List.map_map, List.map_map]
  apply List.map_congr_left
  intro r hr
  show (fillRowAux (fillAt (dedupTable df)) 0 r).getD i Value.na
      = if r.getD i Value.na = Value.na then Value.num m else r.getD i Value.na
  rw [fillRowAux_getD, if_pos (hrl r hr), Nat.zero_add, fillCell_some hf]

theorem scenario_median :
    medianQ (numsOf (valuesAtIdx (dedupTable scenarioTbl) 0)) = some 25 := by
  rw [show numsOf (valuesAtIdx (dedupTable scenarioTbl) 0) = [25, 25] from by decide]
  have hs : List.insertionSort (fun a b => a ≤ b) ([25, 25] : List ℚ) = [25, 25] := by
    simp [List.insertionSort, List.orderedInsert]
  simp only [medianQ, hs]
  norm_num

theorem scenario_clean_eval :
    clean_data scenarioTbl
      = ⟨["age", "city"],
         [[Value.num 25, Value.str "A"],
          [Value.num 25, Value.str "A"],
          [Value.num 25, Value.str "B"]]⟩ := by
  have hf0 : fillAt (dedupTable scenarioTbl) 0 = some 25 := by
    simp only [fillAt]
    rw [if_pos (by decide), scenario_median]
  apply table_ext
  · rfl
  show (dedupTable scenarioTbl).rows.map
      (fun r => fillRowAux (fillAt (dedupTable scenarioTbl)) 0 r) = _
  rw [show (dedupTable scenarioTbl).rows
      = [[Value.num 25, Value.str "A"], [Value.na, Value.str "A"],
         [Value.num 25, Value.str "B"]] from by decide]
  simp [fillRowAux, fillCell, isNA, hf0]

/-- C3: clean first removes exact duplicate rows keeping the first
occurrence of each (deduplication equals the left-to-right
keep-if-not-seen scan, is a sublist of the original rows, hence
preserves the relative order of survivors, and is duplicate-free), and
then replaces the missing entries of each numeric column with that
column's median over the observed values remaining after
deduplication; on the spec scenario table this yields 3 rows with the
missing age imputed as the median 25 of the two remaining ages. -/
theorem clean_dedup_then_median_impute :
    (∀ rows : List (List Value), dedupRows rows = specDedup rows) ∧
    (∀ rows : List (List Value), (dedupRows rows).Sublist rows ∧ (dedupRows rows).Nodup) ∧
    (∀ (df : Table) (i : Nat), df.WF → i < df.cols.length →
      numericVals (valuesAtIdx (dedupTable df) i) = true →
      ∀ m : ℚ, medianQ (numsOf (valuesAtIdx (dedupTable df) i)) = some m →
        valuesAtIdx (clean_data df) i
          = (valuesAtIdx (dedupTable df) i).map
              (fun v => if v = Value.na then Value.num m else v)) ∧
    clean_data scenarioTbl
      = ⟨["age", "city"],
         [[Value.num 25, Value.str "A"],
          [Value.num 25, Value.str "A"],
          [Value.num 25, Value.str "B"]]⟩ := by
  refine ⟨dedupRows_eq_specDedup,
    fun rows => ⟨distinctAux_sublist rows [], nodup_distinctAux rows []⟩,
    fun df i hwf hi hnum m hm =>
      clean_fills_numeric_column_with_median df i hwf hi hnum m hm,
    scenario_clean_eval⟩

/-- Witness for C3: the age column of the cleaned scenario table is
the deduplicated age column with its missing entry replaced by the
median 25. -/
theorem clean_dedup_then_median_impute_witness :
    valuesAtIdx (clean_data scenarioTbl) 0
      = (valuesAtIdx (dedupTable scenarioTbl) 0).map
          (fun v => if v = Value.na then Value.num 25 else v) :=
  clean_dedup_then_median_impute.2.2.1 scenarioTbl 0 (by decide) (by decide) (by decide)
    25 scenario_median

/-- C4 assessment: `explore_data` calls `df.corr()` with no try/except
around it; under the pandas 2.x default `numeric_only=False` the frame
is converted to floats first, so on a table that also has a textual
column the call raises an uncaught ValueError instead of restricting
itself to the numeric columns. -/
theorem explore_corr_faults_on_mixed_table :
    dataframe_corr tblMixedTypes = Except.error "could not convert string to float" ∧
    numericVals (valuesAtIdx tblMixedTypes 0) = true ∧
    numericVals (valuesAtIdx tblMixedTypes 1) = false :=
  ⟨rfl, rfl, rfl⟩

theorem value_counts_perm (vs : List Value) :
    (value_counts vs).Perm
      ((distinctFirstSeen (vs.filter (fun v => !isNA v))).map
        (fun v => (v, (vs.filter (fun v => !isNA v)).count v))) :=
  List.perm_insertionSort byCountDesc _

/-- C8: `value_counts` maps each distinct observed value of a column
to its occurrence count: every reported pair is an observed
non-missing value with its exact count, counts appear in
non-increasing order, no value is reported twice, and every observed
non-missing value is reported; on the scenario table the city column
yields A:3 before B:1, and a tied two-value example keeps
first-seen order. -/
theorem value_counts_spec (df : Table) (c : String) :
    (∀ p ∈ value_counts (colValues df c),
        p.1 ∈ colValues df c ∧ isNA p.1 = false
          ∧ p.2 = (colValues df c).count p.1) ∧
    List.Sorted (fun a b : Nat => b ≤ a) ((value_counts (colValues df c)).map Prod.snd) ∧
    ((value_counts (colValues df c)).map Prod.fst).Nodup ∧
    (∀ v ∈ colValues df c, isNA v = false →
        v ∈ (value_counts (colValues df c)).map Prod.fst) ∧
    value_counts (colValues scenarioTbl "city")
      = [(Value.str "A", 3), (Value.str "B", 1)] ∧
    value_counts [Value.str "A", Value.str "B", Value.str "A", Value.str "B"]
      = [(Value.str "A", 2), (Value.str "B", 2)] := by
  have hperm := value_counts_perm (colValues df c)
  refine ⟨?_, ?_, ?_, ?_, by decide, by decide⟩
  · intro p hp
    have hp2 := hperm.mem_iff.mp hp
    obtain ⟨v, hv, he⟩ := List.mem_map.mp hp2
    cases he
    have hvp : v ∈ (colValues df c).filter (fun v => !isNA v) :=
      (mem_distinctFirstSeen v _).mp hv
    have hvmem := (List.mem_filter.mp hvp).1
    have hvna : isNA v = false := by
      have h2 := (List.mem_filter.mp hvp).2
      simpa using h2
    refine ⟨hvmem, hvna, ?_⟩
    exact List.count_filter (by rw [hvna]; rfl)
  · have hs : List.Sorted byCountDesc (value_counts (colValues df c)) :=
      List.sorted_insertionSort byCountDesc _
    exact List.Pairwise.map Prod.snd (fun a b h => h) hs
  · have hp2 := hperm.map Prod.fst
    rw [List.map_map] at hp2
    have he : (Prod.fst ∘ fun v : Value =>
        (v, ((colValues df c).filter (fun v => !isNA v)).count v)) = id := rfl
    rw [he, List.map_id] at hp2
    exact hp2.nodup_iff.mpr (nodup_distinctAux _ [])
  · intro v hv hna
    have hvp : v ∈ (colValues df c).filter (fun v => !isNA v) :=
      List.mem_filter.mpr ⟨hv, by rw [hna]; rfl⟩
    have hvd : v ∈ distinctFirstSeen ((colValues df c).filter (fun v => !isNA v)) :=
      (mem_distinctFirstSeen v _).mpr hvp
    have hpair : (v, ((colValues df c).filter (fun v => !isNA v)).count v)
        ∈ (distinctFirstSeen ((colValues df c).filter (fun v => !isNA v))).map
          (fun v => (v, ((colValues df c).filter (fun v => !isNA v)).count v)) :=
      List.mem_map_of_mem _ hvd
    exact List.mem_map_of_mem Prod.fst (hperm.mem_iff.mpr hpair)

/-- Witness for C8 at the scenario table's city column. -/
theorem value_counts_spec_witness :
    value_counts (colValues scenarioTbl "city")
      = [(Value.str "A", 3), (Value.str "B", 1)] ∧
    List.Sorted (fun a b : Nat => b ≤ a)
      ((value_counts (colValues scenarioTbl "city")).map Prod.snd) ∧
    (Value.str "A" ∈ colValues scenarioTbl "city" ∧ isNA (Value.str "A") = false
      ∧ 3 = (colValues scenarioTbl "city").count (Value.str "A")) :=
  ⟨(value_counts_spec scenarioTbl "city").2.2.2.2.1,
   (value_counts_spec scenarioTbl "city").2.1,
   (value_counts_spec scenarioTbl "city").1 (Value.str "A", 3) (by decide)⟩


theorem sum_filter_split {α β : Type} [DecidableEq α] (key : β → α) (w : β → ℕ)
    (a : α) (seen : List α) (ha : a ∉ seen) :
    ∀ t : List β,
      ((t.filter (fun x => decide (key x = a))).map w).sum
        + ((t.filter (fun x => !decide (key x ∈ a :: seen))).map w).sum
      = ((t.filter (fun x => !decide (key x ∈ seen))).map w).sum := by
  intro t
  induction t with
  | nil => rfl
  | cons x t ih =>
    by_cases h1 : key x = a
    · have h3 : key x ∉ seen := by rw [h1]; exact ha
      have e1 : (x :: t).filter (fun y => decide (key y = a))
          = x :: t.filter (fun y => decide (key y = a)) :=
        List.filter_cons_of_pos (decide_eq_true h1)
      have e2 : (x :: t).filter (fun y => !decide (key y ∈ a :: seen))
          = t.filter (fun y => !decide (key y ∈ a :: seen)) :=
        List.filter_cons_of_neg (by
          rw [decide_eq_true (show key x ∈ a :: seen from by
            rw [h1]; exact List.mem_cons_self a seen)]
          simp)
      have e3 : (x :: t).filter (fun y => !decide (key y ∈ seen))
          = x :: t.filter (fun y => !decide (key y ∈ seen)) :=
        List.filter_cons_of_pos (by rw [decide_eq_false h3]; rfl)
      rw [e1, e2, e3]
      simp only [List.map_cons, List.sum_cons]
      omega
    · by_cases h2 : key x ∈ seen
      · have e1 : (x :: t).filter (fun y => decide (key y = a))
            = t.filter (fun y => decide (key y = a)) :=
          List.filter_cons_of_neg (by rw [decide_eq_false h1]; simp)
        have e2 : (x :: t).filter (fun y => !decide (key y ∈ a :: seen))
            = t.filter (fun y => !decide (key y ∈ a :: seen)) :=
          List.filter_cons_of_neg (by
            rw [decide_eq_true (List.mem_cons_of_mem a h2)]
            simp)
        have e3 : (x :: t).filter (fun y => !decide (key y ∈ seen))
            = t.filter (fun y => !decide (key y ∈ seen)) :=
          List.filter_cons_of_neg (by rw [decide_eq_true h2]; simp)
        rw [e1, e2, e3]
        exact ih
      · have e1 : (x :: t).filter (fun y => decide (key y = a))
            = t.filter (fun y => decide (key y = a)) :=
          List.filter_cons_of_neg (by rw [decide_eq_false h1]; simp)
        have e2 : (x :: t).filter (fun y => !decide (key y ∈ a :: seen))
            = x :: t.filter (fun y => !decide (key y ∈ a :: seen)) :=
          List.filter_cons_of_pos (by
            rw [decide_eq_false (show key x ∉ a :: seen from by
              intro hm
              rcases List.mem_cons.mp hm with he | hm2
              · exact h1 he
              · exact h2 hm2)]
            rfl)
        have e3 : (x :: t).filter (fun y => !decide (key y ∈ seen))
            = x :: t.filter (fun y => !decide (key y ∈ seen)) :=
          List.filter_cons_of_pos (by rw [decide_eq_false h2]; rfl)
        rw [e1, e2, e3]
        simp only [List.map_cons, List.sum_cons]
        omega

theorem distinctAux_groups_sum {α β : Type} [DecidableEq α] (key : β → α) (w : β → ℕ) :
    ∀ (l : List β) (seen : List α),
      ((distinctAux seen (l.map key)).map
        (fun k => ((l.filter (fun b => decide (key b = k))).map w).sum)).sum
      = ((l.filter (fun b => !decide (key b ∈ seen))).map w).sum := by
  intro l
  induction l with
  | nil => intro seen; simp [distinctAux]
  | cons b t ih =>
    intro seen
    simp only [List.map_cons]
    by_cases hb : key b ∈ seen
    · rw [show distinctAux seen (key b :: t.map key) = distinctAux seen (t.map key) from by
        simp only [distinctAux, if_pos hb]]
      have hmap : (distinctAux seen (t.map key)).map
            (fun k => (((b :: t).filter (fun y => decide (key y = k))).map w).sum)
          = (distinctAux seen (t.map key)).map
            (fun k => ((t.filter (fun y => decide (key y = k))).map w).sum) := by
        apply List.map_congr_left
        intro k hk
        have hkb : ¬ key b = k := fun he =>
          ((mem_distinctAux k (t.map key) seen).mp hk).2 (he ▸ hb)
        have e : ((b :: t).filter (fun y => decide (key y = k)))
            = t.filter (fun y => decide (key y = k)) :=
          List.filter_cons_of_neg (by rw [decide_eq_false hkb]; simp)
        rw [e]
      have e2 : ((b :: t).filter (fun y => !decide (key y ∈ seen)))
          = t.filter (fun y => !decide (key y ∈ seen)) :=
        List.filter_cons_of_neg (by rw [decide_eq_true hb]; simp)
      rw [hmap, ih seen, e2]
    · rw [show distinctAux seen (key b :: t.map key)
          = key b :: distinctAux (key b :: seen) (t.map key) from by
        simp only [distinctAux, if_neg hb]]
      simp only [List.map_cons, List.sum_cons]
      have h1 : ((b :: t).filter (fun y => decide (key y = key b)))
          = b :: t.filter (fun y => decide (key y = key b)) :=
        List.filter_cons_of_pos (decide_eq_true rfl)
      have hmap : (distinctAux (key b :: seen) (t.map key)).map
            (fun k => (((b :: t).filter (fun y => decide (key y = k))).map w).sum)
          = (distinctAux (key b :: seen) (t.map key)).map
            (fun k => ((t.filter (fun y => decide (key y = k))).map w).sum) := by
        apply List.map_congr_left
        intro k hk
        have hkb : ¬ key b = k := fun he =>
          ((mem_distinctAux k (t.map key) (key b :: seen)).mp hk).2
            (he ▸ List.mem_cons_self (key b) seen)
        have e : ((b :: t).filter (fun y => decide (key y = k)))
            = t.filter (fun y => decide (key y = k)) :=
          List.filter_cons_of_neg (by rw [decide_eq_false hkb]; simp)
        rw [e]
      have e3 : ((b :: t).filter (fun y => !decide (key y ∈ seen)))
          = b :: t.filter (fun y => !decide (key y ∈ seen)) :=
        List.filter_cons_of_pos (by rw [decide_eq_false hb]; rfl)
      rw [h1, hmap, ih (key b :: seen), e3]
      simp only [List.map_cons, List.sum_cons]
      have h4 := sum_filter_split key w (key b) seen hb t
      omega

theorem sum_map_one {β : Type} (l : List β) : (l.map (fun _ => (1 : ℕ))).sum = l.length := by
  induction l with
  | nil => rfl
  | cons x t ih =>
    simp only [List.map_cons, List.sum_cons, List.length_cons, ih]
    omega

theorem group_sizes_sum (df : Table) (gcols : List String) :
    ((groupKeys df gcols).map (fun k => (groupRows df gcols k).length)).sum
      = (keptRows df gcols).length := by
  have h := distinctAux_groups_sum (keyOf df gcols) (fun _ => (1 : ℕ)) (keptRows df gcols) []
  have hL : (groupKeys df gcols).map (fun k => (groupRows df gcols k).length)
      = (groupKeys df gcols).map (fun k =>
          (((keptRows df gcols).filter (fun b => decide (keyOf df gcols b = k))).map
            (fun _ => (1 : ℕ))).sum) :=
    List.map_congr_left (fun k _ => (sum_map_one (groupRows df gcols k)).symm)
  rw [hL]
  have h2 : ((keptRows df gcols).filter
      (fun b => !decide (keyOf df gcols b ∈ ([] : List (List Value)))))
      = keptRows df gcols :=
    List.filter_eq_self.mpr (fun a _ => by
      rw [decide_eq_false (List.not_mem_nil (keyOf df gcols a))]
      rfl)
  have h3 : ((groupKeys df gcols).map (fun k =>
      (((keptRows df gcols).filter (fun b => decide (keyOf df gcols b = k))).map
        (fun _ => (1 : ℕ))).sum)).sum
      = (((keptRows df gcols).filter
          (fun b => !decide (keyOf df gcols b ∈ ([] : List (List Value))))).map
            (fun _ => (1 : ℕ))).sum := h
  rw [h3, h2]
  exact sum_map_one _

theorem groupRows_ne_nil {df : Table} {gcols : List String} {k : List Value}
    (hk : k ∈ groupKeys df gcols) : groupRows df gcols k ≠ [] := by
  have hk2 : k ∈ distinctAux [] ((keptRows df gcols).map (keyOf df gcols)) := hk
  obtain ⟨r, hr, rfl⟩ := List.mem_map.mp ((mem_distinctAux k _ []).mp hk2).1
  have hmem : r ∈ groupRows df gcols (keyOf df gcols r) :=
    List.mem_filter.mpr ⟨hr, decide_eq_true rfl⟩
  exact List.ne_nil_of_mem hmem

theorem groupNullPct_zero {rows : List (List Value)} {i : Nat}
    (h : ((rows.map (fun r => r.getD i Value.na)).count Value.na) = 0) :
    groupNullPct rows i = 0 := by
  unfold groupNullPct
  rw [h]
  norm_num

/-- C2 (amended): with non-empty group columns, the grouped null
percentage partitions exactly the rows whose group-key values are all
observed: group sizes sum to the number of such rows, every group is
non-empty and holds kept rows with exactly its key, every kept row
belongs to the group of its own key, and no group key contains a
missing value — rows with a missing group-key value are dropped by
groupby, they do not form a group of their own; within each group the
report is the per-feature null percentage, and on the cleaned scenario
table grouped by city both groups report age 0 percent. -/
theorem grouped_null_pct_partitions_kept_rows (df : Table) (gcols fcols : List String) :
    (((groupKeys df gcols).map (fun k => (groupRows df gcols k).length)).sum
        = (keptRows df gcols).length) ∧
    (∀ k ∈ groupKeys df gcols, groupRows df gcols k ≠ []
        ∧ ∀ r ∈ groupRows df gcols k, keyOf df gcols r = k ∧ r ∈ keptRows df gcols) ∧
    (∀ r ∈ keptRows df gcols, keyOf df gcols r ∈ groupKeys df gcols
        ∧ r ∈ groupRows df gcols (keyOf df gcols r)) ∧
    (∀ k ∈ groupKeys df gcols, Value.na ∉ k) ∧
    (nullPctGrouped df gcols fcols
      = (groupKeys df gcols).map (fun k =>
          (k, fcols.map (fun f => groupNullPct (groupRows df gcols k) (colIdx df f))))) ∧
    (nullPctGrouped (clean_data scenarioTbl) ["city"] ["age"]
      = [([Value.str "A"], [(0 : ℚ)]), ([Value.str "B"], [(0 : ℚ)])]) := by
  refine ⟨group_sizes_sum df gcols, ?_, ?_, ?_, rfl, ?_⟩
  · intro k hk
    refine ⟨groupRows_ne_nil hk, ?_⟩
    intro r hr
    have h2 := List.mem_filter.mp hr
    exact ⟨of_decide_eq_true h2.2, h2.1⟩
  · intro r hr
    constructor
    · have hm : keyOf df gcols r ∈ (keptRows df gcols).map (keyOf df gcols) :=
        List.mem_map_of_mem _ hr
      exact (mem_distinctAux _ _ []).mpr ⟨hm, List.not_mem_nil _⟩
    · exact List.mem_filter.mpr ⟨hr, decide_eq_true rfl⟩
  · intro k hk hna
    have hk2 : k ∈ distinctAux [] ((keptRows df gcols).map (keyOf df gcols)) := hk
    obtain ⟨r, hr, rfl⟩ := List.mem_map.mp ((mem_distinctAux k _ []).mp hk2).1
    have hall := (List.mem_filter.mp hr).2
    have h3 := List.all_eq_true.mp hall Value.na hna
    simp [isNA] at h3
  · rw [scenario_clean_eval]
    unfold nullPctGrouped
    rw [show groupKeys (⟨["age", "city"],
        [[Value.num 25, Value.str "A"], [Value.num 25, Value.str "A"],
         [Value.num 25, Value.str "B"]]⟩ : Table) ["city"]
        = [[Value.str "A"], [Value.str "B"]] from by decide]
    simp only [List.map_cons, List.map_nil]
    rw [groupNullPct_zero (by decide), groupNullPct_zero (by decide)]

/-- Counterexample to C2 as stated: the second row of this table has a
missing group-key value; groupby drops it, so no group with a missing
key exists and that row belongs to no partition — one single group A
covers 1 of the 2 rows. -/
theorem grouped_null_pct_missing_key_counterexample :
    groupKeys tblMissingKey ["g"] = [[Value.str "A"]] ∧
    [Value.na] ∉ groupKeys tblMissingKey ["g"] ∧
    (keptRows tblMissingKey ["g"]).length = 1 ∧
    tblMissingKey.rows.length = 2 ∧
    nullPctGrouped tblMissingKey ["g"] ["x"] = [([Value.str "A"], [(100 : ℚ)])] := by
  refine ⟨by decide, by decide, by decide, by decide, ?_⟩
  unfold nullPctGrouped
  rw [show groupKeys tblMissingKey ["g"] = [[Value.str "A"]] from by decide]
  simp only [List.map_cons, List.map_nil]
  unfold groupNullPct
  rw [show (((groupRows tblMissingKey ["g"] [Value.str "A"]).map
      (fun r => r.getD (colIdx tblMissingKey "x") Value.na)).count Value.na) = 1 from by decide]
  rw [show (groupRows tblMissingKey ["g"] [Value.str "A"]).length = 1 from by decide]
  norm_num

/-- Witness for the amended C2 on the cleaned scenario table grouped
by city. -/
theorem grouped_null_pct_partition_witness :
    ((groupKeys (clean_data scenarioTbl) ["city"]).map
        (fun k => (groupRows (clean_data scenarioTbl) ["city"] k).length)).sum
      = (keptRows (clean_data scenarioTbl) ["city"]).length ∧
    groupRows (clean_data scenarioTbl) ["city"] [Value.str "B"] ≠ [] :=
  ⟨(grouped_null_pct_partitions_kept_rows (clean_data scenarioTbl) ["city"] ["age"]).1,
   ((grouped_null_pct_partitions_kept_rows (clean_data scenarioTbl) ["city"] ["age"]).2.1
      [Value.str "B"] (by decide)).1⟩

theorem count_na_eq_indicator_sum (i : Nat) :
    ∀ rows : List (List Value),
      ((rows.map (fun r => r.getD i Value.na)).count Value.na)
        = (rows.map (fun r => if r.getD i Value.na = Value.na then (1 : ℕ) else 0)).sum := by
  intro rows
  induction rows with
  | nil => rfl
  | cons r t ih =>
    simp only [List.map_cons, List.count_cons, List.sum_cons, ih]
    by_cases h : r.getD i Value.na = Value.na
    · rw [if_pos h, if_pos (beq_iff_eq.mpr h)]
      omega
    · rw [if_neg h, if_neg (fun hb => h (beq_iff_eq.mp hb))]
      omega

theorem group_term_weighted (rows : List (List Value)) (i : Nat) (h : rows ≠ []) :
    (rows.length : ℚ) * groupNullPct rows i
      = 100 * (((rows.map (fun r => r.getD i Value.na)).count Value.na : ℕ) : ℚ) := by
  have hl : ((rows.length : ℕ) : ℚ) ≠ 0 :=
    Nat.cast_ne_zero.mpr (fun h0 => h (List.length_eq_zero.mp h0))
  unfold groupNullPct
  field_simp

/-- C5 (amended): when every row of the table has all its group-key
values observed (so groupby drops no rows) and the table is non-empty
(so the ungrouped percentage is defined), the per-group null
percentages of a column, each weighted by its group's row count and
summed, equal the table row count times the ungrouped null percentage
of that column. -/
theorem weighted_group_null_pct_eq_total (df : Table) (gcols : List String) (c : String)
    (q : ℚ)
    (hkeys : ∀ r ∈ df.rows, ((keyOf df gcols r).all (fun v => !isNA v)) = true)
    (hq : nullPct df c = some q) :
    weightedGroupSum df gcols c = (df.rows.length : ℚ) * q := by
  have hkept : keptRows df gcols = df.rows := List.filter_eq_self.mpr hkeys
  have hN : ¬ df.rows.length = 0 := by
    intro h0
    simp only [nullPct, if_pos h0] at hq
    exact Option.noConfusion hq
  have hqval : q = 100 * (((colValues df c).count Value.na : ℕ) : ℚ)
      / ((df.rows.length : ℕ) : ℚ) := by
    simp only [nullPct, if_neg hN] at hq
    exact (Option.some.inj hq).symm
  have hNQ : ((df.rows.length : ℕ) : ℚ) ≠ 0 := Nat.cast_ne_zero.mpr hN
  have hrhs : (df.rows.length : ℚ) * q
      = 100 * (((colValues df c).count Value.na : ℕ) : ℚ) := by
    rw [hqval]
    field_simp
  rw [hrhs]
  unfold weightedGroupSum
  have hmap1 : (groupKeys df gcols).map (fun k =>
        ((groupRows df gcols k).length : ℚ)
          * groupNullPct (groupRows df gcols k) (colIdx df c))
      = (groupKeys df gcols).map (fun k =>
        100 * ((((groupRows df gcols k).map
          (fun r => r.getD (colIdx df c) Value.na)).count Value.na : ℕ) : ℚ)) :=
    List.map_congr_left (fun k hk =>
      group_term_weighted (groupRows df gcols k) (colIdx df c) (groupRows_ne_nil hk))
  rw [hmap1]
  rw [show ((groupKeys df gcols).map (fun k =>
      100 * ((((groupRows df gcols k).map
        (fun r => r.getD (colIdx df c) Value.na)).count Value.na : ℕ) : ℚ))).sum
      = 100 * ((groupKeys df gcols).map (fun k =>
        ((((groupRows df gcols k).map
          (fun r => r.getD (colIdx df c) Value.na)).count Value.na : ℕ) : ℚ))).sum from
    List.sum_map_mul_left _ _ _]
  congr 1
  rw [show (groupKeys df gcols).map (fun k =>
      ((((groupRows df gcols k).map
        (fun r => r.getD (colIdx df c) Value.na)).count Value.na : ℕ) : ℚ))
      = ((groupKeys df gcols).map (fun k =>
        (((groupRows df gcols k).map
          (fun r => r.getD (colIdx df c) Value.na)).count Value.na : ℕ))).map
          (fun n : ℕ => (n : ℚ)) from (List.map_map _ _ _).symm]
  rw [← Nat.cast_list_sum]
  congr 1
  have hconv : (groupKeys df gcols).map (fun k =>
        (((groupRows df gcols k).map
          (fun r => r.getD (colIdx df c) Value.na)).count Value.na : ℕ))
      = (groupKeys df gcols).map (fun k =>
        ((groupRows df gcols k).map
          (fun r => if r.getD (colIdx df c) Value.na = Value.na then (1 : ℕ) else 0)).sum) :=
    List.map_congr_left (fun k _ => count_na_eq_indicator_sum (colIdx df c) _)
  rw [hconv]
  have h := distinctAux_groups_sum (keyOf df gcols)
    (fun r => if r.getD (colIdx df c) Value.na = Value.na then (1 : ℕ) else 0)
    (keptRows df gcols) []
  have h2 : ((keptRows df gcols).filter
      (fun b => !decide (keyOf df gcols b ∈ ([] : List (List Value)))))
      = keptRows df gcols :=
    List.filter_eq_self.mpr (fun a _ => by
      rw [decide_eq_false (List.not_mem_nil (keyOf df gcols a))]
      rfl)
  have h4 : ((groupKeys df gcols).map (fun k =>
      (((keptRows df gcols).filter (fun b => decide (keyOf df gcols b = k))).map
        (fun r => if r.getD (colIdx df c) Value.na = Value.na then (1 : ℕ) else 0)).sum)).sum
      = (((keptRows df gcols).filter
          (fun b => !decide (keyOf df gcols b ∈ ([] : List (List Value))))).map
        (fun r => if r.getD (colIdx df c) Value.na = Value.na then (1 : ℕ) else 0)).sum := h
  rw [h2] at h4
  have h5 : ((groupKeys df gcols).map (fun k =>
      ((groupRows df gcols k).map
        (fun r => if r.getD (colIdx df c) Value.na = Value.na then (1 : ℕ) else 0)).sum)).sum
      = ((keptRows df gcols).map
        (fun r => if r.getD (colIdx df c) Value.na = Value.na then (1 : ℕ) else 0)).sum := h4
  rw [h5, hkept]
  exact (count_na_eq_indicator_sum (colIdx df c) df.rows).symm

/-- Counterexample to C5 as stated: the single row of this table has a
missing group-key value, so groupby produces no groups at all; the
weighted sum of per-group percentages is 0 while the row count times
the ungrouped null percentage of the feature is 100. -/
theorem weighted_group_sum_counterexample :
    weightedGroupSum tblAllKeyNA ["g"] "c" = 0 ∧
    nullPct tblAllKeyNA "c" = some 100 ∧
    ((tblAllKeyNA.rows.length : ℕ) : ℚ) * 100 ≠ 0 := by
  refine ⟨?_, ?_, by norm_num [tblAllKeyNA]⟩
  · unfold weightedGroupSum
    rw [show groupKeys tblAllKeyNA ["g"] = [] from by decide]
    rfl
  · simp only [nullPct]
    rw [if_neg (by decide)]
    rw [show ((colValues tblAllKeyNA "c").count Value.na) = 1 from by decide]
    rw [show tblAllKeyNA.rows.length = 1 from rfl]
    norm_num

/-- Witness for the amended C5 at a concrete table with two groups
and a feature that is missing in both. -/
theorem weighted_group_null_pct_witness :
    weightedGroupSum tblGrouped ["g"] "c"
      = (tblGrouped.rows.length : ℚ) * (200 / 3) :=
  weighted_group_null_pct_eq_total tblGrouped ["g"] "c" (200 / 3) (by decide) (by
    simp only [nullPct]
    rw [if_neg (by decide)]
    rw [show ((colValues tblGrouped "c").count Value.na) = 2 from by decide]
    rw [show tblGrouped.rows.length = 3 from rfl]
    norm_num)
